import Mathlib

/-!
Shallow embedding of the PolyAI summarization pipeline
(src/polyai/frontend/app.js), covering the agent functions
`runReasoningAgent`, `runVerificationAgent`, `runSimplificationAgent`,
`runCritiqueAgent`, `refineSummary` and their helpers `countWords`,
`averageWordLength`, `extractImportantTerms`.

Modelling conventions:
* JS strings are `List Char`; the texts in scope are ASCII, so
  `toLowerCase`/`toUpperCase` are modelled on the ASCII range.
* JS numbers are exact rationals; the division `1 - s/o` in the critique
  agent can produce the IEEE non-finite values `NaN`/`-Infinity`, so its
  result is modelled by `JsNum` (a rational, or one of the non-finite
  markers), with JS comparison semantics (every comparison with `NaN`
  is false).
* `Array.prototype.sort` with a numeric comparator is a stable sort
  (ES2019); it is modelled by `List.insertionSort` with the comparator's
  reflexive relation, which is stable in the same sense.
* `Math.round x = ⌊x + 1/2⌋`, and `Math.ceil (n * 0.3)` for a natural `n`
  is `(3*n + 9) / 10` in natural division (the exact rational ceiling;
  `0.3 * n` stays far enough from integer boundaries for IEEE doubles to
  round identically at every realistic size).
-/

/-- Character class of the JS regex `\s` (ASCII range). -/
def isWsChar (c : Char) : Bool :=
  c = ' ' ∨ c = '\t' ∨ c = '\n' ∨ c = '\r' ∨ c = '\x0b' ∨ c = '\x0c'

/-- Character class of the JS regex `[.,!?]` used by the refiner. -/
def isPunctChar (c : Char) : Bool :=
  c = '.' ∨ c = ',' ∨ c = '!' ∨ c = '?'

/-- `String.prototype.toLowerCase`, one character, ASCII range. -/
def toLowerChar (c : Char) : Char :=
  if 'A' ≤ c ∧ c ≤ 'Z' then Char.ofNat (c.toNat + 32) else c

/-- `String.prototype.toUpperCase`, one character, ASCII range. -/
def toUpperChar (c : Char) : Char :=
  if 'a' ≤ c ∧ c ≤ 'z' then Char.ofNat (c.toNat - 32) else c

/-- Convenience: the character list of a string literal. -/
def str (s : String) : List Char := s.data

/-- Worker for `splitWs`.  The flag records whether we are inside a
whitespace run whose field boundary has already been emitted. -/
def splitWsAux : Bool → List Char → List Char → List (List Char)
  | _, acc, [] => [acc.reverse]
  | inRun, acc, c :: cs =>
    if isWsChar c then
      if inRun then splitWsAux true [] cs
      else acc.reverse :: splitWsAux true [] cs
    else splitWsAux false (c :: acc) cs

/-- JS `text.split(/\s+/)`: fields between maximal whitespace runs;
a leading (resp. trailing) run contributes a leading (resp. trailing)
empty field, and the empty string yields `[""]`. -/
def splitWs (l : List Char) : List (List Char) :=
  splitWsAux false [] l

/-- JS `String.prototype.trim` (ASCII whitespace). -/
def trimStr (l : List Char) : List Char :=
  ((l.dropWhile isWsChar).reverse.dropWhile isWsChar).reverse

/-- `countWords` from app.js: trim, split on `\s+`, keep non-empty tokens.
The early `return 0` for a blank string is the `if` below. -/
def countWords (l : List Char) : Nat :=
  if (trimStr l).isEmpty then 0
  else ((splitWs (trimStr l)).filter (fun w => !w.isEmpty)).length

/-- JS `haystack.includes(pat)` on character lists. -/
def jsIncludes (pat : List Char) : List Char → Bool
  | [] => pat.isEmpty
  | c :: cs => pat.isPrefixOf (c :: cs) || jsIncludes pat cs

/-- JS `Array.prototype.join(sep)`. -/
def joinSep (sep : List Char) : List (List Char) → List Char
  | [] => []
  | [s] => s
  | s :: s2 :: rest => s ++ sep ++ joinSep sep (s2 :: rest)

/-- `averageWordLength` from app.js: mean length of the non-empty
whitespace-delimited tokens, `0` when there are none. -/
def averageWordLength (l : List Char) : ℚ :=
  let words := (splitWs l).filter (fun w => !w.isEmpty)
  if words.length = 0 then 0
  else ((words.map List.length).sum : ℚ) / (words.length : ℚ)

/-- JS `Math.round` on an exact rational: round half up. -/
def jsRound (q : ℚ) : Int := ⌊q + 1 / 2⌋

/-- A JS number that may be one of the IEEE non-finite values. -/
inductive JsNum : Type
  | num (q : ℚ)
  | posInf
  | negInf
  | nan
deriving DecidableEq

/-- JS division of two (finite) numbers, with the IEEE zero-denominator
results. -/
def jsDiv (a b : ℚ) : JsNum :=
  if b ≠ 0 then .num (a / b)
  else if a > 0 then .posInf
  else if a < 0 then .negInf
  else .nan

/-- JS `1 - x` extended to the non-finite values. -/
def jsOneSub : JsNum → JsNum
  | .num q => .num (1 - q)
  | .posInf => .negInf
  | .negInf => .posInf
  | .nan => .nan

/-- JS `x > q` (false on `NaN`). -/
def jsGt (x : JsNum) (q : ℚ) : Bool :=
  match x with
  | .num a => a > q
  | .posInf => true
  | .negInf => false
  | .nan => false

/-- JS `x < q` (false on `NaN`). -/
def jsLt (x : JsNum) (q : ℚ) : Bool :=
  match x with
  | .num a => a < q
  | .posInf => false
  | .negInf => true
  | .nan => false

/-- JS `x * 100` extended to the non-finite values. -/
def jsMul100 : JsNum → JsNum
  | .num q => .num (q * 100)
  | .posInf => .posInf
  | .negInf => .negInf
  | .nan => .nan

/-- JS `Math.round` extended to the non-finite values. -/
def jsRoundNum : JsNum → JsNum
  | .num q => .num ((jsRound q : Int) : ℚ)
  | .posInf => .posInf
  | .negInf => .negInf
  | .nan => .nan

/-- The result of `processInput` (the fields the agents read). -/
structure ProcessedDoc : Type where
  normalized : List Char
  sentences : List (List Char)

/-- The transient `{ sentence, score, index }` objects built by
`runReasoningAgent`. -/
structure ScoredSentence : Type where
  sentence : List Char
  score : Nat
  index : Nat

/-- Output of `runReasoningAgent`. -/
structure ReasoningResult : Type where
  summary : List Char
  confidence : ℚ
  keyPoints : Nat

/-- Output of `runVerificationAgent`. -/
structure VerificationResult : Type where
  verified : Bool
  coverage : Int
  issues : List (List Char)
  confidence : ℚ

/-- Output of `runSimplificationAgent` (`avgWordLength` is kept as the
unformatted rational behind the `toFixed(1)` display string). -/
structure SimplificationResult : Type where
  summary : List Char
  readabilityImproved : Bool
  avgWordLength : ℚ
  confidence : ℚ

/-- Output of `runCritiqueAgent`. -/
structure CritiqueResult : Type where
  issues : List (List Char)
  compressionRatio : JsNum
  quality : List Char
  confidence : ℚ

/-! ### Reasoning agent -/

/-- The fixed `keyIndicators` array of `runReasoningAgent`. -/
def keyIndicators : List (List Char) :=
  [str "key", str "important", str "main", str "essential", str "critical",
   str "significant", str "primary", str "focus", str "because",
   str "therefore", str "thus", str "result"]

/-- The per-sentence score of `runReasoningAgent`: position bonuses,
`+2` per key indicator contained (case-insensitively) in the sentence,
and a medium-length bonus.  `index + 1 = total` is the integer condition
`index === sentences.length - 1`. -/
def scoreSentence (total index : Nat) (sentence : List Char) : Nat :=
  (if index < 2 then 3 else 0)
  + (if index + 1 = total then 2 else 0)
  + keyIndicators.foldl
      (fun sc ind => if jsIncludes ind (sentence.map toLowerChar) then sc + 2 else sc) 0
  + (if 10 ≤ countWords sentence ∧ countWords sentence ≤ 30 then 1 else 0)

/-- Order produced by the comparator `(a, b) => b.score - a.score`. -/
def scoreGe (a b : ScoredSentence) : Prop := b.score ≤ a.score

/-- Order produced by the comparator `(a, b) => a.index - b.index`. -/
def idxLe (a b : ScoredSentence) : Prop := a.index ≤ b.index

instance : DecidableRel scoreGe := fun a b => Nat.decLe b.score a.score

instance : DecidableRel idxLe := fun a b => Nat.decLe a.index b.index

instance : IsTotal ScoredSentence scoreGe :=
  ⟨fun a b => Nat.le_total b.score a.score⟩

instance : IsTrans ScoredSentence scoreGe :=
  ⟨fun _ _ _ h1 h2 => Nat.le_trans h2 h1⟩

instance : IsTotal ScoredSentence idxLe :=
  ⟨fun a b => Nat.le_total a.index b.index⟩

instance : IsTrans ScoredSentence idxLe :=
  ⟨fun _ _ _ h1 h2 => Nat.le_trans h1 h2⟩

/-- The `scored` array: each sentence with its score and original index. -/
def scoredOf (doc : ProcessedDoc) : List ScoredSentence :=
  doc.sentences.enum.map
    (fun p => ⟨p.2, scoreSentence doc.sentences.length p.1 p.2, p.1⟩)

/-- `Math.max(3, Math.ceil(n * 0.3))`: the requested selection size. -/
def selCount (n : Nat) : Nat := max 3 ((3 * n + 9) / 10)

/-- The selected scored sentences: stable sort by descending score,
take the requested count, stable re-sort by ascending original index. -/
def selectedScored (doc : ProcessedDoc) : List ScoredSentence :=
  List.insertionSort idxLe
    ((List.insertionSort scoreGe (scoredOf doc)).take
      (selCount doc.sentences.length))

/-- `topSentences`: the selected sentences, in re-sorted order. -/
def reasoningSelected (doc : ProcessedDoc) : List (List Char) :=
  (selectedScored doc).map ScoredSentence.sentence

/-- `runReasoningAgent` from app.js. -/
def runReasoningAgent (doc : ProcessedDoc) : ReasoningResult :=
  { summary := joinSep (str " ") (reasoningSelected doc)
    confidence := 3 / 4
    keyPoints := (reasoningSelected doc).length }

/-! ### Verification agent -/

/-- The lower-cased summary words of length `> 4`. -/
def significantWords (summary : List Char) : List (List Char) :=
  (splitWs (summary.map toLowerChar)).filter (fun w => w.length > 4)

/-- The significant words found as substrings of the lower-cased source. -/
def matchedWords (normalized summary : List Char) : List (List Char) :=
  (significantWords summary).filter
    (fun w => jsIncludes w (normalized.map toLowerChar))

/-- The raw coverage fraction `matched / significant` (`0` when there are
no significant words). -/
def rawCoverage (doc : ProcessedDoc) (r : ReasoningResult) : ℚ :=
  if (significantWords r.summary).length > 0 then
    ((matchedWords doc.normalized r.summary).length : ℚ)
      / ((significantWords r.summary).length : ℚ)
  else 0

/-- `runVerificationAgent` from app.js. -/
def runVerificationAgent (doc : ProcessedDoc) (r : ReasoningResult) :
    VerificationResult :=
  { verified := decide (rawCoverage doc r > 7 / 10)
    coverage := jsRound (rawCoverage doc r * 100)
    issues :=
      if rawCoverage doc r < 7 / 10 then
        [str "Some claims may not be directly from source"]
      else []
    confidence := rawCoverage doc r }

/-! ### Simplification agent -/

/-- The fixed `replacements` mapping, in `Object.entries` order
(string-key insertion order). -/
def replacements : List (List Char × List Char) :=
  [(str "utilize", str "use"), (str "implement", str "set up"),
   (str "facilitate", str "help"), (str "demonstrate", str "show"),
   (str "significant", str "important"), (str "approximately", str "about"),
   (str "subsequently", str "then"), (str "consequently", str "so"),
   (str "nevertheless", str "but"), (str "furthermore", str "also")]

/-- `s.replace(new RegExp(pat, 'gi'), rep)` for a plain-text `pat`:
scan left to right, replace each (non-overlapping, case-insensitive)
occurrence and resume after it. -/
def replaceCI (pat rep : List Char) : List Char → List Char
  | [] => []
  | c :: cs =>
    if pat.isPrefixOf (List.map toLowerChar (c :: cs)) then
      rep ++ replaceCI pat rep (List.drop (pat.length - 1) cs)
    else
      c :: replaceCI pat rep cs
termination_by s => s.length
decreasing_by
  all_goals simp [List.length_drop]
  omega

/-- The `simplified` text: all ten replacements applied in order. -/
def simplifiedText (s : List Char) : List Char :=
  replacements.foldl (fun acc p => replaceCI p.1 p.2 acc) s

/-- `runSimplificationAgent` from app.js (the `processed` argument is
unused by the source as well). -/
def runSimplificationAgent (_doc : ProcessedDoc) (r : ReasoningResult) :
    SimplificationResult :=
  { summary := simplifiedText r.summary
    readabilityImproved :=
      decide (averageWordLength (simplifiedText r.summary)
        < averageWordLength r.summary)
    avgWordLength := averageWordLength (simplifiedText r.summary)
    confidence := 4 / 5 }

/-! ### Critique agent -/

/-- The fixed stop-word set of `extractImportantTerms`. -/
def stopWords : List (List Char) :=
  [str "the", str "a", str "an", str "is", str "are", str "was", str "were",
   str "be", str "been", str "being", str "have", str "has", str "had",
   str "do", str "does", str "did", str "will", str "would", str "could",
   str "should", str "may", str "might", str "must", str "shall", str "can",
   str "need", str "dare", str "ought", str "used", str "to", str "of",
   str "in", str "for", str "on", str "with", str "at", str "by", str "from",
   str "as", str "into", str "through", str "during", str "before",
   str "after", str "above", str "below", str "between", str "under",
   str "again", str "further", str "then", str "once", str "here",
   str "there", str "when", str "where", str "why", str "how", str "all",
   str "each", str "few", str "more", str "most", str "other", str "some",
   str "such", str "no", str "nor", str "not", str "only", str "own",
   str "same", str "so", str "than", str "too", str "very", str "just",
   str "and", str "but", str "if", str "or", str "because", str "until",
   str "while", str "this", str "that", str "these", str "those", str "it",
   str "its"]

/-- `word.replace(/[^a-z]/g, '')`. -/
def cleanWord (w : List Char) : List Char :=
  w.filter (fun c => decide ('a' ≤ c) && decide (c ≤ 'z'))

/-- One `wordFreq[cleaned] = (wordFreq[cleaned] || 0) + 1` step on an
association list kept in object-key insertion order. -/
def bump : List (List Char × Nat) → List Char → List (List Char × Nat)
  | [], w => [(w, 1)]
  | (k, n) :: rest, w =>
    if k = w then (k, n + 1) :: rest else (k, n) :: bump rest w

/-- The `wordFreq` object of `extractImportantTerms`, as an association
list in key insertion order. -/
def wordFreq (ws : List (List Char)) : List (List Char × Nat) :=
  ws.foldl
    (fun acc w =>
      if decide ((cleanWord w).length > 4)
          && !(stopWords.contains (cleanWord w)) then
        bump acc (cleanWord w)
      else acc) []

/-- Order produced by the comparator `(a, b) => b[1] - a[1]`. -/
def cntGe (a b : List Char × Nat) : Prop := b.2 ≤ a.2

instance : DecidableRel cntGe := fun a b => Nat.decLe b.2 a.2

instance : IsTotal (List Char × Nat) cntGe := ⟨fun a b => Nat.le_total b.2 a.2⟩

instance : IsTrans (List Char × Nat) cntGe :=
  ⟨fun _ _ _ h1 h2 => Nat.le_trans h2 h1⟩

/-- `extractImportantTerms` from app.js: frequency-count the cleaned
significant words, keep those with frequency `≥ 2`, stable-sort by
descending frequency, take the top 10. -/
def extractImportantTerms (text : List Char) : List (List Char) :=
  ((List.insertionSort cntGe
      ((wordFreq (splitWs (text.map toLowerChar))).filter
        (fun p => decide (p.2 ≥ 2)))).take 10).map Prod.fst

/-- The important terms of the source that are missing (as
case-insensitive substrings) from the summary. -/
def missedTerms (original summary : List Char) : List (List Char) :=
  (extractImportantTerms original).filter
    (fun t => !(jsIncludes (t.map toLowerChar) (summary.map toLowerChar)))

/-- The optional `May be missing: ...` issue. -/
def missingIssue (original summary : List Char) : List (List Char) :=
  if (missedTerms original summary).length > 3 then
    [str "May be missing: "
      ++ joinSep (str ", ") ((missedTerms original summary).take 3)]
  else []

/-- The two independent compression checks, pushed in source order. -/
def compressionIssues (ratio : JsNum) : List (List Char) :=
  (if jsGt ratio (9 / 10) then [str "Summary may be over-compressed"] else [])
  ++ (if jsLt ratio (3 / 10) then [str "Summary could be more concise"] else [])

/-- `runCritiqueAgent` from app.js. -/
def runCritiqueAgent (doc : ProcessedDoc) (r : ReasoningResult) :
    CritiqueResult :=
  { issues := compressionIssues
        (jsOneSub (jsDiv (countWords r.summary) (countWords doc.normalized)))
      ++ missingIssue doc.normalized r.summary
    compressionRatio := jsRoundNum (jsMul100
      (jsOneSub (jsDiv (countWords r.summary) (countWords doc.normalized))))
    quality :=
      if (compressionIssues
            (jsOneSub (jsDiv (countWords r.summary) (countWords doc.normalized)))
          ++ missingIssue doc.normalized r.summary).length = 0 then str "Good"
      else if (compressionIssues
            (jsOneSub (jsDiv (countWords r.summary) (countWords doc.normalized)))
          ++ missingIssue doc.normalized r.summary).length < 2 then str "Fair"
      else str "Needs improvement"
    confidence := 7 / 10 }

/-! ### Refiner -/

/-- Worker for `collapseWs`; the flag records whether the current
whitespace run has already emitted its single space. -/
def collapseWsAux : Bool → List Char → List Char
  | _, [] => []
  | inRun, c :: cs =>
    if isWsChar c then
      if inRun then collapseWsAux true cs else ' ' :: collapseWsAux true cs
    else c :: collapseWsAux false cs

/-- `s.replace(/\s+/g, ' ')`. -/
def collapseWs (l : List Char) : List Char := collapseWsAux false l

/-- `s.replace(/\s+([.,!?])/g, '$1')`: delete every whitespace run that
immediately precedes one of `. , ! ?` (scanning resumes after the
punctuation character).  The first argument holds the pending
(reversed) whitespace run. -/
def sbpAux : List Char → List Char → List Char
  | pend, [] => pend.reverse
  | pend, c :: cs =>
    if isWsChar c then sbpAux (c :: pend) cs
    else if isPunctChar c then c :: sbpAux [] cs
    else pend.reverse ++ c :: sbpAux [] cs

/-- The whole `\s+([.,!?])` cleanup pass. -/
def stripSpacePunct (l : List Char) : List Char := sbpAux [] l

/-- JS `s.endsWith(c)` for a single character. -/
def endsWithCh (l : List Char) (c : Char) : Bool := l.getLast? = some c

/-- `s.charAt(0).toUpperCase() + s.slice(1)` (empty-safe in JS). -/
def capitalizeFirst : List Char → List Char
  | [] => []
  | c :: cs => toUpperChar c :: cs

/-- The cleanup chain of `refineSummary` applied to the selected base
text: collapse whitespace, drop spaces before punctuation, trim,
capitalize, and append `'.'` unless the text already ends in
`.`, `!` or `?`. -/
def refinePolish (s : List Char) : List Char :=
  let s4 := capitalizeFirst (trimStr (stripSpacePunct (collapseWs s)))
  if !endsWithCh s4 '.' && !endsWithCh s4 '!' && !endsWithCh s4 '?' then
    s4 ++ ['.']
  else s4

/-- `refineSummary` from app.js: polish the simplified summary when
verification passed, the raw reasoning summary otherwise.  The critique
argument is accepted (as in the source) but never read. -/
def refineSummary (r : ReasoningResult) (v : VerificationResult)
    (s : SimplificationResult) (_c : CritiqueResult) : List Char :=
  refinePolish (if v.verified then s.summary else r.summary)

/-! ### Concrete sample inputs used by witnesses and counterexamples -/

/-- An empty document. -/
def docEmpty : ProcessedDoc := ⟨[], []⟩

/-- A reasoning result with an empty summary. -/
def rEmpty : ReasoningResult := ⟨[], 3 / 4, 0⟩

/-- A document whose normalized text matches 7 of the 10 significant
words of `rCov.summary` (raw coverage exactly 7/10). -/
def docCov : ProcessedDoc := ⟨str "aaaaa", []⟩

/-- A reasoning result with ten 5-letter words, seven of which occur in
`docCov.normalized`. -/
def rCov : ReasoningResult :=
  ⟨str "aaaaa aaaaa aaaaa aaaaa aaaaa aaaaa aaaaa bbbbb bbbbb bbbbb", 3 / 4, 0⟩

/-- A verification result with `verified = false`. -/
def verifNo : VerificationResult := ⟨false, 0, [], 0⟩

/-- A simplification result with an empty summary. -/
def simpEmpty : SimplificationResult := ⟨[], false, 0, 4 / 5⟩

/-- A critique result (contents irrelevant to the refiner). -/
def critEmpty : CritiqueResult := ⟨[], JsNum.nan, str "Good", 7 / 10⟩

/-- A one-sentence document. -/
def docOne : ProcessedDoc := ⟨str "x", [str "hello world abc"]⟩

/-- A reasoning result whose summary contains none of the mapped
complex terms. -/
def rPlain : ReasoningResult := ⟨str "hello world", 3 / 4, 1⟩

/-! ### Claim-side definitions (refinement comparison only)

These two definitions follow the WORDS of claim C2 — "+2 for each
occurrence ... a sentence containing the same indicator term k times
gains 2*k points from that term" — so that they can be compared against
the source-derived `scoreSentence`.  They are not part of the program
embedding. -/

/-- Number of (possibly overlapping) case-insensitive occurrences of
`pat` in `s`: the start positions at which `pat` matches. -/
def claimOccCount (pat s : List Char) : Nat :=
  (List.range s.length).countP
    (fun i => pat.isPrefixOf ((s.map toLowerChar).drop i))

/-- The keyword component of the score as claim C2 reads it: `2 * k`
points for an indicator occurring `k` times. -/
def claimKeywordScore (s : List Char) : Nat :=
  keyIndicators.foldl (fun sc ind => sc + 2 * claimOccCount ind s) 0

/-! ### Helper lemmas -/

/-- Folding `+2` over the elements satisfying `p` counts each element
satisfying `p` exactly once. -/
theorem foldl_add_two_countP {α : Type} (p : α → Bool) (l : List α) (a : Nat) :
    l.foldl (fun sc x => if p x then sc + 2 else sc) a = a + 2 * l.countP p := by
  induction l generalizing a with
  | nil => simp
  | cons x xs ih =>
    rw [List.foldl_cons, List.countP_cons, ih]
    by_cases h : p x = true
    · simp [h]; omega
    · simp [h]

/-- A case-insensitive plain-text replace is the identity on a string
that does not contain the pattern case-insensitively. -/
theorem replaceCI_no_occurrence (pat rep : List Char) :
    ∀ s : List Char, jsIncludes pat (s.map toLowerChar) = false →
      replaceCI pat rep s = s := by
  intro s
  induction s with
  | nil => intro _; rw [replaceCI]
  | cons c cs ih =>
    intro h
    rw [List.map_cons, jsIncludes, Bool.or_eq_false_iff] at h
    rw [replaceCI, List.map_cons]
    simp only [h.1, Bool.false_eq_true, if_false]
    rw [ih h.2]

/-- Folding the whole replacement table over such a string is also the
identity. -/
theorem foldl_replace_noop :
    ∀ (ps : List (List Char × List Char)) (s : List Char),
      (∀ p ∈ ps, jsIncludes p.1 (s.map toLowerChar) = false) →
      ps.foldl (fun acc p => replaceCI p.1 p.2 acc) s = s := by
  intro ps
  induction ps with
  | nil => intro s _; rfl
  | cons p ps ih =>
    intro s h
    rw [List.foldl_cons, replaceCI_no_occurrence p.1 p.2 s (h p (List.mem_cons_self _ _))]
    exact ih s (fun q hq => h q (List.mem_cons_of_mem _ hq))

/-! ### Claim theorems -/

/-- Claim C2 (amended): in the Reasoning Extractor's scoring a sentence
receives +2 once for each DISTINCT indicator term that occurs in it
(case-insensitive substring match), regardless of how many times that
term occurs; together with the two position bonuses and the
medium-length bonus this is the whole score. -/
theorem score_counts_each_indicator_once (total index : Nat) (s : List Char) :
    scoreSentence total index s =
      (if index < 2 then 3 else 0) + (if index + 1 = total then 2 else 0)
      + 2 * keyIndicators.countP (fun ind => jsIncludes ind (s.map toLowerChar))
      + (if 10 ≤ countWords s ∧ countWords s ≤ 30 then 1 else 0) := by
  unfold scoreSentence
  rw [foldl_add_two_countP]
  omega

/-- Claim C2 counterexample: the sentence "key key" contains the
indicator "key" twice, yet its whole score (no position or length
bonus applies) is 2, while the claimed per-occurrence reading demands
2*2 = 4 keyword points. -/
theorem score_occurrence_counterexample :
    scoreSentence 5 2 (str "key key") = 2
    ∧ claimKeywordScore (str "key key") = 4
    ∧ (2 : Nat) ≠ 4 :=
  ⟨by decide, by decide, by decide⟩

/-- Claim C8: the refiner's base text is the simplification summary when
verification passed and the raw reasoning summary otherwise, and the
critique argument never influences the returned string: two calls
differing only in the critique argument agree. -/
theorem refine_ignores_critique (r : ReasoningResult) (v : VerificationResult)
    (s : SimplificationResult) (c c' : CritiqueResult) :
    refineSummary r v s c = refineSummary r v s c'
    ∧ refineSummary r v s c
        = refinePolish (if v.verified then s.summary else r.summary) :=
  ⟨rfl, rfl⟩

/-- Claim C7: the Simplifier leaves a summary unchanged when the summary
contains (case-insensitively) none of the ten mapped complex terms; in
particular it is idempotent on such texts. -/
theorem simplify_noop_without_terms (doc : ProcessedDoc) (r : ReasoningResult)
    (h : ∀ p ∈ replacements, jsIncludes p.1 (r.summary.map toLowerChar) = false) :
    (runSimplificationAgent doc r).summary = r.summary := by
  show simplifiedText r.summary = r.summary
  exact foldl_replace_noop replacements r.summary h

/-- Witness for C7 at the concrete summary "hello world". -/
theorem simplify_noop_without_terms_witness :
    (∀ p ∈ replacements, jsIncludes p.1 (rPlain.summary.map toLowerChar) = false)
    ∧ (runSimplificationAgent docEmpty rPlain).summary = rPlain.summary :=
  ⟨by decide, simplify_noop_without_terms docEmpty rPlain (by decide)⟩

/-- Claim C1 (amended): the refiner's output always ends in one of
`.`, `!`, `?` — also when the selected base text is empty, in which case
the terminal-punctuation step appends a period and the result is ".". -/
theorem refine_ends_terminal (r : ReasoningResult) (v : VerificationResult)
    (s : SimplificationResult) (c : CritiqueResult) :
    (endsWithCh (refineSummary r v s c) '.' = true
      ∨ endsWithCh (refineSummary r v s c) '!' = true
      ∨ endsWithCh (refineSummary r v s c) '?' = true)
    ∧ ((if v.verified then s.summary else r.summary) = [] →
        refineSummary r v s c = ['.']) := by
  constructor
  · unfold refineSummary refinePolish
    cases h4 : (!endsWithCh (capitalizeFirst (trimStr (stripSpacePunct
        (collapseWs (if v.verified then s.summary else r.summary))))) '.'
        && !endsWithCh (capitalizeFirst (trimStr (stripSpacePunct
        (collapseWs (if v.verified then s.summary else r.summary))))) '!'
        && !endsWithCh (capitalizeFirst (trimStr (stripSpacePunct
        (collapseWs (if v.verified then s.summary else r.summary))))) '?') with
    | true =>
      simp only [h4, if_true]
      left
      simp only [endsWithCh, decide_eq_true_eq]
      exact List.getLast?_concat _
    | false =>
      simp only [h4, Bool.false_eq_true, if_false]
      simp only [Bool.and_eq_false_iff, Bool.not_eq_false'] at h4
      rcases h4 with (h | h) | h
      · exact Or.inl h
      · exact Or.inr (Or.inl h)
      · exact Or.inr (Or.inr h)
  · intro h
    unfold refineSummary
    rw [h]
    decide

/-- Witness for C1 at an empty base text. -/
theorem refine_ends_terminal_witness :
    (if verifNo.verified then simpEmpty.summary else rEmpty.summary) = []
    ∧ refineSummary rEmpty verifNo simpEmpty critEmpty = ['.'] :=
  ⟨by decide,
   (refine_ends_terminal rEmpty verifNo simpEmpty critEmpty).2 (by decide)⟩

/-- Claim C1 counterexample: with an empty selected base text the
refiner returns ".", not the empty string the claim requires. -/
theorem refine_empty_base_counterexample :
    refineSummary rEmpty verifNo simpEmpty critEmpty = ['.']
    ∧ ['.'] ≠ ([] : List Char) :=
  ⟨by decide, by decide⟩

/-- The raw coverage fraction always lies in `[0, 1]`. -/
theorem rawCoverage_bounds (doc : ProcessedDoc) (r : ReasoningResult) :
    0 ≤ rawCoverage doc r ∧ rawCoverage doc r ≤ 1 := by
  unfold rawCoverage
  split
  · rename_i h
    have hm : (matchedWords doc.normalized r.summary).length
        ≤ (significantWords r.summary).length := List.length_filter_le _ _
    have hs : (0 : ℚ) < ((significantWords r.summary).length : ℚ) := by
      exact_mod_cast h
    constructor
    · positivity
    · rw [div_le_one hs]
      exact_mod_cast hm
  · norm_num

/-- Claim C4: the reported coverage percent lies in `[0, 100]`, and
`verified` holds iff the raw coverage fraction is strictly greater than
`7/10` (so at exactly `0.70` it is false). -/
theorem verification_coverage_bounds (doc : ProcessedDoc) (r : ReasoningResult) :
    0 ≤ (runVerificationAgent doc r).coverage
    ∧ (runVerificationAgent doc r).coverage ≤ 100
    ∧ ((runVerificationAgent doc r).verified = true
        ↔ rawCoverage doc r > 7 / 10) := by
  obtain ⟨h0, h1⟩ := rawCoverage_bounds doc r
  refine ⟨?_, ?_, ?_⟩
  · show (0 : Int) ≤ jsRound (rawCoverage doc r * 100)
    unfold jsRound
    rw [Int.le_floor]
    push_cast
    nlinarith
  · show jsRound (rawCoverage doc r * 100) ≤ (100 : Int)
    unfold jsRound
    have : (⌊rawCoverage doc r * 100 + 1 / 2⌋ : Int) < 101 := by
      rw [Int.floor_lt]
      push_cast
      nlinarith
    omega
  · show decide (rawCoverage doc r > 7 / 10) = true ↔ _
    exact decide_eq_true_iff

/-- Witness for C4 at the empty document and summary. -/
theorem verification_coverage_bounds_witness :
    0 ≤ (runVerificationAgent docEmpty rEmpty).coverage
    ∧ (runVerificationAgent docEmpty rEmpty).coverage ≤ 100 :=
  ⟨(verification_coverage_bounds docEmpty rEmpty).1,
   (verification_coverage_bounds docEmpty rEmpty).2.1⟩

/-- Claim C3 (amended): the issues list holds exactly the literal
message iff the raw coverage fraction is STRICTLY below `7/10`, and is
empty otherwise; in particular at raw coverage exactly `0.7` it is
empty (the source tests `coverage < 0.7`, not `≤`). -/
theorem verification_issue_strict_threshold (doc : ProcessedDoc)
    (r : ReasoningResult) :
    ((runVerificationAgent doc r).issues
        = [str "Some claims may not be directly from source"]
      ↔ rawCoverage doc r < 7 / 10)
    ∧ ((runVerificationAgent doc r).issues = []
      ↔ ¬ rawCoverage doc r < 7 / 10) := by
  have hiss : (runVerificationAgent doc r).issues
      = if rawCoverage doc r < 7 / 10 then
          [str "Some claims may not be directly from source"] else [] := rfl
  rw [hiss]
  by_cases h : rawCoverage doc r < 7 / 10
  · rw [if_pos h]
    refine ⟨⟨fun _ => h, fun _ => rfl⟩, ⟨fun hc => ?_, fun hc => absurd h hc⟩⟩
    exact absurd hc (by decide)
  · rw [if_neg h]
    refine ⟨⟨fun hc => ?_, fun hc => absurd hc h⟩, ⟨fun _ => h, fun _ => rfl⟩⟩
    exact absurd hc.symm (by decide)

/-- Concrete evaluation: `rCov.summary` has ten significant words. -/
theorem sigLen_sample : (significantWords rCov.summary).length = 10 := by decide

/-- Concrete evaluation: seven of them occur in `docCov.normalized`. -/
theorem matLen_sample :
    (matchedWords docCov.normalized rCov.summary).length = 7 := by decide

/-- The sample pair has raw coverage exactly `7/10`. -/
theorem rawCoverage_sample : rawCoverage docCov rCov = 7 / 10 := by
  unfold rawCoverage
  rw [sigLen_sample, matLen_sample]
  norm_num

/-- Claim C3 counterexample: at raw coverage exactly `0.7` the issues
list is empty, while the claim demands the message to be present. -/
theorem verification_boundary_counterexample :
    rawCoverage docCov rCov = 7 / 10
    ∧ (runVerificationAgent docCov rCov).issues = []
    ∧ (runVerificationAgent docCov rCov).issues
        ≠ [str "Some claims may not be directly from source"] := by
  have h2 : (runVerificationAgent docCov rCov).issues = [] := by
    show (if rawCoverage docCov rCov < 7 / 10 then _ else _) = []
    rw [rawCoverage_sample]
    norm_num
  refine ⟨rawCoverage_sample, h2, ?_⟩
  rw [h2]
  decide

/-- Claim C9 (amended): verification coverage is a defined `0` when the
summary has no significant words; the critique's `compressionRatio`
computation never crashes when the normalized source has zero words,
but it yields the IEEE non-finite `NaN` (when the summary also has zero
words) or `-Infinity` (otherwise), not a finite sentinel such as `0`. -/
theorem zero_denominator_defaults (doc : ProcessedDoc) (r : ReasoningResult) :
    (significantWords r.summary = [] →
      rawCoverage doc r = 0 ∧ (runVerificationAgent doc r).coverage = 0)
    ∧ (countWords doc.normalized = 0 →
        (runCritiqueAgent doc r).compressionRatio = JsNum.nan
        ∨ (runCritiqueAgent doc r).compressionRatio = JsNum.negInf) := by
  constructor
  · intro h
    have hr : rawCoverage doc r = 0 := by
      unfold rawCoverage
      rw [h]
      norm_num
    refine ⟨hr, ?_⟩
    show jsRound (rawCoverage doc r * 100) = 0
    rw [hr]
    unfold jsRound
    norm_num
  · intro h
    have hcr : (runCritiqueAgent doc r).compressionRatio
        = jsRoundNum (jsMul100 (jsOneSub (jsDiv (countWords r.summary)
            (countWords doc.normalized)))) := rfl
    rw [hcr, h]
    rcases Nat.eq_zero_or_pos (countWords r.summary) with hs | hs
    · left
      rw [hs]
      simp [jsDiv, jsOneSub, jsMul100, jsRoundNum]
    · right
      have hpos : (0 : ℚ) < (countWords r.summary : ℚ) := by exact_mod_cast hs
      simp [jsDiv, jsOneSub, jsMul100, jsRoundNum, hpos]

/-- Witness for C9 at the empty document and summary. -/
theorem zero_denominator_defaults_witness :
    rawCoverage docEmpty rEmpty = 0
    ∧ ((runCritiqueAgent docEmpty rEmpty).compressionRatio = JsNum.nan
        ∨ (runCritiqueAgent docEmpty rEmpty).compressionRatio = JsNum.negInf) :=
  ⟨((zero_denominator_defaults docEmpty rEmpty).1 (by decide)).1,
   (zero_denominator_defaults docEmpty rEmpty).2 (by decide)⟩

/-- Claim C9 counterexample: at a zero-word source the critique's
`compressionRatio` is `NaN`, not the finite sentinel `0` the claim
describes. -/
theorem compression_nan_counterexample :
    (runCritiqueAgent docEmpty rEmpty).compressionRatio = JsNum.nan
    ∧ JsNum.nan ≠ JsNum.num 0 := by
  constructor
  · show jsRoundNum (jsMul100 (jsOneSub (jsDiv (countWords rEmpty.summary)
        (countWords docEmpty.normalized)))) = JsNum.nan
    have h1 : countWords rEmpty.summary = 0 := by decide
    have h2 : countWords docEmpty.normalized = 0 := by decide
    rw [h1, h2]
    simp [jsDiv, jsOneSub, jsMul100, jsRoundNum]
  · intro h
    exact JsNum.noConfusion h

/-- The two compression checks can never both fire: a ratio cannot be
both `> 0.9` and `< 0.3` (and the non-finite values trip at most one). -/
theorem compressionIssues_length_le (x : JsNum) :
    (compressionIssues x).length ≤ 1 := by
  cases x with
  | num q =>
    by_cases h1 : (9 : ℚ) / 10 < q
    · by_cases h2 : q < (3 : ℚ) / 10
      · linarith
      · simp [compressionIssues, jsGt, jsLt, h1, h2]
    · by_cases h2 : q < (3 : ℚ) / 10
      · simp [compressionIssues, jsGt, jsLt, h1, h2]
      · simp [compressionIssues, jsGt, jsLt, h1, h2]
  | posInf => decide
  | negInf => decide
  | nan => decide

/-- The missing-terms check contributes at most one issue. -/
theorem missingIssue_length_le (o s : List Char) :
    (missingIssue o s).length ≤ 1 := by
  unfold missingIssue
  split <;> simp

/-- Claim C10: the critique agent reports at most 2 issues (the two
compression issues are mutually exclusive), and its quality is
"Needs improvement" exactly when 2 issues are present. -/
theorem critique_issue_bound (doc : ProcessedDoc) (r : ReasoningResult) :
    (runCritiqueAgent doc r).issues.length ≤ 2
    ∧ ((runCritiqueAgent doc r).quality = str "Needs improvement"
        ↔ (runCritiqueAgent doc r).issues.length = 2) := by
  have hiss : (runCritiqueAgent doc r).issues
      = compressionIssues (jsOneSub (jsDiv (countWords r.summary)
          (countWords doc.normalized)))
        ++ missingIssue doc.normalized r.summary := rfl
  have hqual : (runCritiqueAgent doc r).quality
      = (if (runCritiqueAgent doc r).issues.length = 0 then str "Good"
         else if (runCritiqueAgent doc r).issues.length < 2 then str "Fair"
         else str "Needs improvement") := rfl
  have hlen : (runCritiqueAgent doc r).issues.length ≤ 2 := by
    rw [hiss, List.length_append]
    have h1 := compressionIssues_length_le
      (jsOneSub (jsDiv (countWords r.summary) (countWords doc.normalized)))
    have h2 := missingIssue_length_le doc.normalized r.summary
    omega
  refine ⟨hlen, ?_⟩
  rw [hqual]
  set m := (runCritiqueAgent doc r).issues.length with hm
  clear_value m
  interval_cases m <;> decide

/-- Witness theorem for C10 at a concrete input. -/
theorem critique_issue_bound_witness :
    (runCritiqueAgent docEmpty rEmpty).issues.length ≤ 2 :=
  (critique_issue_bound docEmpty rEmpty).1

/-- `Math.ceil (0.3 * n)` agrees with the natural-division form. -/
theorem ceil_three_tenths (n : Nat) :
    Nat.ceil ((3 * n : ℚ) / 10) = (3 * n + 9) / 10 := by
  have h10 : (0 : ℚ) < 10 := by norm_num
  apply le_antisymm
  · rw [Nat.ceil_le, div_le_iff₀ h10]
    have h : 3 * n ≤ (3 * n + 9) / 10 * 10 := by omega
    exact_mod_cast h
  · have hc := Nat.le_ceil ((3 * n : ℚ) / 10)
    rw [div_le_iff₀ h10] at hc
    have h : 3 * n ≤ Nat.ceil ((3 * n : ℚ) / 10) * 10 := by exact_mod_cast hc
    omega

/-- Number of selected sentences, before the claim-side `min`/`max`
normal form. -/
theorem reasoningSelected_length (doc : ProcessedDoc) :
    (reasoningSelected doc).length
      = min (selCount doc.sentences.length) doc.sentences.length := by
  unfold reasoningSelected selectedScored scoredOf
  rw [List.length_map, List.length_insertionSort, List.length_take,
    List.length_insertionSort, List.length_map, List.enum_length]

/-- Claim C5: on a document with `N > 0` sentences the extractor selects
exactly `min N (max 3 ⌈N * 0.3⌉)` sentences and reports that count as
`keyPoints`; with `N = 0` it returns an empty summary and
`keyPoints = 0`. -/
theorem extract_selection_count (doc : ProcessedDoc) :
    (doc.sentences.length ≠ 0 →
      (runReasoningAgent doc).keyPoints
        = min doc.sentences.length
            (max 3 (Nat.ceil ((3 * doc.sentences.length : ℚ) / 10))))
    ∧ (doc.sentences.length = 0 →
        (runReasoningAgent doc).summary = []
        ∧ (runReasoningAgent doc).keyPoints = 0) := by
  constructor
  · intro _
    show (reasoningSelected doc).length = _
    rw [reasoningSelected_length, ceil_three_tenths]
    exact Nat.min_comm _ _
  · intro h
    have hsel : reasoningSelected doc = [] := by
      have hl := reasoningSelected_length doc
      rw [h] at hl
      simp only [Nat.min_zero] at hl
      exact List.length_eq_zero.mp hl
    constructor
    · show joinSep (str " ") (reasoningSelected doc) = []
      rw [hsel]
      rfl
    · show (reasoningSelected doc).length = 0
      rw [hsel]
      rfl

/-- Witness for C5 at a one-sentence document. -/
theorem extract_selection_count_witness :
    docOne.sentences.length ≠ 0
    ∧ (runReasoningAgent docOne).keyPoints
        = min docOne.sentences.length
            (max 3 (Nat.ceil ((3 * docOne.sentences.length : ℚ) / 10))) :=
  ⟨by decide, (extract_selection_count docOne).1 (by decide)⟩

/-- Every entry of `l.enum` is in range and carries the list element at
its index. -/
theorem enum_elem_spec (l : List (List Char)) :
    ∀ q ∈ l.enum, q.1 < l.length ∧ q.2 = l.getD q.1 [] := by
  intro q hq
  rw [List.mem_enum_iff_getElem?] at hq
  have h1 : q.1 < l.length := by
    by_contra h
    rw [List.getElem?_eq_none (by omega)] at hq
    cases hq
  refine ⟨h1, ?_⟩
  rw [List.getD_eq_getElem l [] h1]
  rw [List.getElem?_eq_getElem h1] at hq
  exact (Option.some_injective _ hq).symm

/-- Every scored sentence records its own index and the sentence stored
at that index. -/
theorem scoredOf_mem (doc : ProcessedDoc) :
    ∀ x ∈ scoredOf doc,
      x.index < doc.sentences.length
      ∧ x.sentence = doc.sentences.getD x.index [] := by
  intro x hx
  unfold scoredOf at hx
  rw [List.mem_map] at hx
  obtain ⟨p, hp, rfl⟩ := hx
  exact enum_elem_spec doc.sentences p hp

/-- The selected scored sentences are drawn (as a sub-multiset) from
the scored array. -/
theorem selectedScored_subperm (doc : ProcessedDoc) :
    (selectedScored doc).Subperm (scoredOf doc) := by
  unfold selectedScored
  refine (List.perm_insertionSort idxLe _).subperm.trans ?_
  refine (List.take_sublist _ _).subperm.trans ?_
  exact (List.perm_insertionSort scoreGe _).subperm

/-- The original indices of the selected sentences are pairwise
distinct. -/
theorem selectedScored_index_nodup (doc : ProcessedDoc) :
    ((selectedScored doc).map ScoredSentence.index).Nodup := by
  obtain ⟨l', hperm, hsubl⟩ := selectedScored_subperm doc
  have h1 : (scoredOf doc).map ScoredSentence.index
      = List.range doc.sentences.length := by
    unfold scoredOf
    rw [List.map_map]
    have h2 : (ScoredSentence.index ∘ fun p : Nat × List Char =>
        (⟨p.2, scoreSentence doc.sentences.length p.1 p.2, p.1⟩ : ScoredSentence))
        = Prod.fst := rfl
    rw [h2, List.enum_map_fst]
  have hnod : ((scoredOf doc).map ScoredSentence.index).Nodup := by
    rw [h1]
    exact List.nodup_range _
  have h3 : List.Sublist (l'.map ScoredSentence.index)
      ((scoredOf doc).map ScoredSentence.index) := hsubl.map _
  exact ((hperm.map ScoredSentence.index).nodup_iff).mp (hnod.sublist h3)

/-- After the final re-sort the selected sentences are in strictly
increasing original order. -/
theorem selectedScored_pairwise_lt (doc : ProcessedDoc) :
    List.Pairwise (fun a b : ScoredSentence => a.index < b.index)
      (selectedScored doc) := by
  have h1 : List.Pairwise idxLe (selectedScored doc) :=
    List.sorted_insertionSort idxLe _
  have h2 : List.Pairwise (fun a b : ScoredSentence => a.index ≠ b.index)
      (selectedScored doc) :=
    List.pairwise_map.mp (selectedScored_index_nodup doc)
  exact (h1.and h2).imp (fun h => lt_of_le_of_ne h.1 h.2)

/-- A selection of positioned sentences with strictly increasing
indices, each carrying the sentence stored at its index, maps to a
sublist of the sentence list. -/
theorem pick_sublist :
    ∀ (l : List (List Char)) (sel : List ScoredSentence),
      (∀ x ∈ sel, x.index < l.length ∧ x.sentence = l.getD x.index [])
      → List.Pairwise (fun a b : ScoredSentence => a.index < b.index) sel
      → List.Sublist (sel.map ScoredSentence.sentence) l := by
  intro l
  induction l with
  | nil =>
    intro sel hmem _
    cases sel with
    | nil => exact List.nil_sublist _
    | cons x xs =>
      exact absurd (hmem x (List.mem_cons_self x xs)).1 (Nat.not_lt_zero _)
  | cons a l ih =>
    intro sel hmem hpw
    cases sel with
    | nil => exact List.nil_sublist _
    | cons x xs =>
      have hx := hmem x (List.mem_cons_self x xs)
      have hxs : ∀ y ∈ xs, x.index < y.index := (List.pairwise_cons.mp hpw).1
      have hpw' : List.Pairwise (fun a b : ScoredSentence => a.index < b.index) xs :=
        (List.pairwise_cons.mp hpw).2
      by_cases h0 : x.index = 0
      · have hsen : x.sentence = a := by
          rw [hx.2, h0]
          rfl
        have hsub : List.Sublist ((xs.map (fun y =>
            ScoredSentence.mk y.sentence y.score (y.index - 1))).map
              ScoredSentence.sentence) l := by
          apply ih
          · intro y' hy'
            rw [List.mem_map] at hy'
            obtain ⟨y, hy, rfl⟩ := hy'
            dsimp only
            have h1 : 1 ≤ y.index := by
              have := hxs y hy
              omega
            have hym := hmem y (List.mem_cons_of_mem _ hy)
            have h2 : y.index < l.length + 1 := by simpa using hym.1
            have he : y.index = (y.index - 1) + 1 := by omega
            refine ⟨by omega, ?_⟩
            rw [hym.2]
            conv_lhs => rw [he]
            rw [List.getD_cons_succ]
          · apply List.pairwise_map.mpr
            apply List.Pairwise.imp_of_mem ?_ hpw'
            intro p q hp _ hlt
            dsimp only
            have := hxs p hp
            omega
        rw [List.map_cons, hsen]
        have heq : xs.map ScoredSentence.sentence
            = (xs.map (fun y => ScoredSentence.mk y.sentence y.score
                (y.index - 1))).map ScoredSentence.sentence := by
          rw [List.map_map]
          rfl
        rw [heq]
        exact List.Sublist.cons₂ a hsub
      · have hall : ∀ y ∈ x :: xs, 1 ≤ y.index := by
          intro y hy
          rcases List.mem_cons.mp hy with rfl | hy'
          · omega
          · have := hxs y hy'
            omega
        have hsub : List.Sublist (((x :: xs).map (fun y =>
            ScoredSentence.mk y.sentence y.score (y.index - 1))).map
              ScoredSentence.sentence) l := by
          apply ih
          · intro y' hy'
            rw [List.mem_map] at hy'
            obtain ⟨y, hy, rfl⟩ := hy'
            dsimp only
            have h1 := hall y hy
            have hym := hmem y hy
            have h2 : y.index < l.length + 1 := by simpa using hym.1
            have he : y.index = (y.index - 1) + 1 := by omega
            refine ⟨by omega, ?_⟩
            rw [hym.2]
            conv_lhs => rw [he]
            rw [List.getD_cons_succ]
          · apply List.pairwise_map.mpr
            apply List.Pairwise.imp_of_mem ?_ hpw
            intro p q hp _ hlt
            dsimp only
            have := hall p hp
            omega
        have heq : (x :: xs).map ScoredSentence.sentence
            = ((x :: xs).map (fun y => ScoredSentence.mk y.sentence y.score
                (y.index - 1))).map ScoredSentence.sentence := by
          rw [List.map_map]
          rfl
        rw [heq]
        exact List.Sublist.cons a hsub

/-- Claim C6: the sentences joined into the Reasoning Extractor's
summary appear in the same relative order as in the input document
(the selected list is a sublist of the document's sentence list),
whatever order their scores induced. -/
theorem reasoning_preserves_order (doc : ProcessedDoc) :
    List.Sublist (reasoningSelected doc) doc.sentences
    ∧ (runReasoningAgent doc).summary = joinSep (str " ") (reasoningSelected doc) := by
  refine ⟨?_, rfl⟩
  apply pick_sublist
  · intro x hx
    exact scoredOf_mem doc x ((selectedScored_subperm doc).subset hx)
  · exact selectedScored_pairwise_lt doc

/-- Witness for C3: at the empty summary the raw coverage is `0 < 0.7`
and the issue message is present. -/
theorem verification_issue_strict_threshold_witness :
    (runVerificationAgent docEmpty rEmpty).issues
      = [str "Some claims may not be directly from source"] := by
  apply (verification_issue_strict_threshold docEmpty rEmpty).1.mpr
  have h : significantWords rEmpty.summary = [] := by decide
  unfold rawCoverage
  rw [h]
  norm_num
